import Mathlib

/-!
# Hangman.c: the round and turn logic of `main`

A shallow embedding of the game loop of `src/Hangman.c`.

Conventions of the embedding.

* A C string is represented by the list of the characters that precede its
  terminating zero byte, so `strlen` is the length of the list.  The secret
  word is the content of `word[]` up to the terminator; a word guess is the
  token read by `scanf(" %s", ...)`.
* The mask is the content of the `letterno` elements of `unknownword[]`.
  Line 64 stores one more byte, at `unknownword[letterno]`, past the end of the
  array: the value of the pointer to the literal `"0"` converted to `char`,
  not the character 0 that the comment of line 63 announces.  That byte is
  part of the state (`Game.past`), since `strcmp` at line 93 reads it.
* What the source leaves to the build is collected in `Build`: the byte that
  line 64 stores, and where the arrays `unknownword` and `wordguess` of line 58
  lie with respect to each other.  `scanf` at line 100 stores the candidate
  and its terminator from `wordguess[0]` on with no bound, and `wordguess` has
  `letterno` elements only, so a candidate of `letterno` characters or more is
  written past the array; the bytes of `unknownword` that the write reaches
  are computed from the build.  The other variables of `main` are taken to lie
  out of reach of these writes.
* `lifeno`, `looselife` and `wordtest` are C `int`s, embedded as `Int`; the
  values reached by the program stay far from the limits of `int`.
* The loop counter `i` is an `unsigned char`; a loaded word has fewer than
  `MaxWordLenght` characters, so the counter never wraps and is a `Nat` here.
* Console output is not modelled.  The input of one turn is the selector read
  at line 75 together with the letter (line 80) or the word (line 100) that the
  chosen branch reads.
* `wordtest` is declared at line 41 without an initial value and is not
  assigned when a round starts, so the value a round starts with is a
  parameter of `startRound`.
-/

namespace Hangman

/-- Line 30: `#define NoLives 10`. -/
def NoLives : Int := 10

/-- Line 29: `#define MaxWordLenght 45`. -/
def MaxWordLenght : Nat := 45

/-- The zero byte: the terminator of a C string. -/
def NUL : Char := Char.ofNat 0

/-- The library function `strlen` on the list representation of a C string. -/
def strlen (s : List Char) : Nat := s.length

/-- The library function `strcmp`: the strings are compared character by
character, the shorter one ending in the terminator (value 0); the result is
the difference of the first pair of characters that differ, 0 if there is
none.  The program only tests the result against 0. -/
def strcmp : List Char → List Char → Int
  | [], [] => 0
  | [], b :: _ => 0 - (b.toNat : Int)
  | a :: _, [] => (a.toNat : Int)
  | a :: as, b :: bs =>
    if a = b then strcmp as bs else (a.toNat : Int) - (b.toNat : Int)

/-- What the program depends on and the source does not fix. -/
structure Build where
  /-- The byte that line 64 stores at `unknownword[letterno]`: the lowest byte
  of the address of the literal `"0"`. -/
  lit : Char
  /-- Whether `wordguess` lies below `unknownword` in memory (line 58). -/
  below : Bool
  /-- The number of bytes between the end of the lower and the start of the
  upper of the two arrays of line 58, when they have `letterno` elements. -/
  pad : Nat → Nat

/-- The address of `unknownword[0]` minus the address of `wordguess[0]`, for
arrays of `letterno` elements: the two arrays do not overlap. -/
def Build.gap (B : Build) (letterno : Nat) : Int :=
  if B.below then ((letterno + B.pad letterno : Nat) : Int)
  else 0 - ((letterno + B.pad letterno : Nat) : Int)

/-- One build, for the examples: the literal lies at an address that ends in
the byte 8, the arrays of line 58 take whole blocks of 16 bytes and
`wordguess` is the lower one, as a common compiler for 64-bit machines lays
them out. -/
def sampleBuild : Build :=
  { lit := Char.ofNat 8
    below := true
    pad := fun letterno => (16 - letterno % 16) % 16 }

/-- The variables of `main` that live across the turns of a round. -/
structure Game where
  /-- The secret word, `word[]` (line 39), filled by `readfile`. -/
  word : List Char
  /-- The mask shown to the player, the `letterno` elements of
  `unknownword[]` (line 58). -/
  unknownword : List Char
  /-- The number of lives left, `lifeno` (line 41). -/
  lifeno : Int
  /-- The last comparison result, `wordtest` (line 41). -/
  wordtest : Int
  /-- The byte at `unknownword[letterno]`, past the mask (line 64). -/
  past : Char
  deriving DecidableEq

/-- Where the turn loop of lines 69-141 stands after a turn: still looping,
left through the `break` of line 119 (won) or through the `break` of line 138
(lost). -/
inductive Status where
  | InProgress
  | Won
  | Lost
  deriving DecidableEq

/-- What one turn reads from the player: the selector `worl` (line 75), and
the value read by the branch it selects: `letterguess` (line 80) when
`worl` is `l`, `wordguess` (line 100) when `worl` is `w`. -/
structure Turn where
  worl : Char
  letterguess : Char
  wordguess : List Char
  deriving DecidableEq

/-- The variables written by the branches of lines 77-113. -/
structure TurnVars where
  unknownword : List Char
  past : Char
  looselife : Int
  wordtest : Int
  deriving DecidableEq

/-- Lines 46-64: the start of a round.  `lifeno` is set to `NoLives`, the mask
is filled with `letterno = strlen(word)` placeholders and line 64 stores the
byte of the build after it; `wordtest` keeps the value it had. -/
def startRound (B : Build) (wordtest : Int) (word : List Char) : Game :=
  { word := word
    unknownword := List.replicate (strlen word) '*'
    lifeno := NoLives
    wordtest := wordtest
    past := B.lit }

/-- Lines 83-94: the `for` loop of a letter guess, with `n` iterations left
and counter `i`.  Each iteration reveals position `i` when `word[i]` is the
guessed letter (clearing `looselife`), then recomputes `wordtest` with
`strcmp(word, unknownword)`: the comparison runs over the `letterno`
characters of the word and its terminator on one side, over the mask and the
byte stored after it on the other. -/
def letterLoop (word : List Char) (letterguess : Char) :
    Nat → Nat → TurnVars → TurnVars
  | 0, _, v => v
  | n + 1, i, v =>
    let v1 : TurnVars :=
      if word[i]? = some letterguess then
        { v with unknownword := v.unknownword.set i letterguess, looselife := 0 }
      else v
    let v2 : TurnVars :=
      { v1 with wordtest := strcmp (word ++ [NUL]) (v1.unknownword ++ [v1.past]) }
    letterLoop word letterguess n (i + 1) v2

/-- Line 100, one byte: `scanf` stores the characters of the candidate and
then the terminator at `wordguess[0]`, `wordguess[1]`, and so on.  The byte at
the offset `off` from `wordguess[0]` holds what was stored there, and keeps
its value `old` when the offset is below the array or beyond the terminator. -/
def stored (wordguess : List Char) (off : Int) (old : Char) : Char :=
  if 0 ≤ off then (wordguess ++ [NUL]).getD off.toNat old else old

/-- Line 100, a run of bytes that starts at the offset `off` from
`wordguess[0]`. -/
def storedAll (wordguess : List Char) : Int → List Char → List Char
  | _, [] => []
  | off, c :: cs => stored wordguess off c :: storedAll wordguess (off + 1) cs

/-- Lines 71-113: the guess of one turn.  `looselife` starts at 1; the letter
branch runs `letterLoop` over the `letterno` positions; the word branch reads
the candidate into `wordguess`, which changes the bytes of `unknownword` that
the write reaches, compares the word with the candidate and forces a mismatch
when the lengths differ; any other selector sets `looselife` to 2 and leaves
`wordtest`. -/
def guess (B : Build) (s : Game) (t : Turn) : TurnVars :=
  let letterno := strlen s.word
  let v : TurnVars :=
    { unknownword := s.unknownword, past := s.past, looselife := 1, wordtest := s.wordtest }
  if t.worl = 'l' then
    letterLoop s.word t.letterguess letterno 0 v
  else if t.worl = 'w' then
    let v1 : TurnVars :=
      { v with
        unknownword := storedAll t.wordguess (B.gap letterno) s.unknownword
        past := stored t.wordguess (B.gap letterno + letterno) s.past
        wordtest := strcmp s.word t.wordguess }
    if strlen s.word ≠ strlen t.wordguess then { v1 with wordtest := 1 } else v1
  else
    { v with looselife := 2 }

/-- Lines 69-141: one pass through the body of the turn loop.  After the
guess, `wordtest == 0` leaves the loop as a win (lines 116-120) before any
life is taken; otherwise a life is taken when `looselife == 1` (lines 124-128)
and the loop is left as a loss when no life remains (lines 136-140). -/
def turn (B : Build) (s : Game) (t : Turn) : Game × Status :=
  let v := guess B s t
  if v.wordtest = 0 then
    ({ s with unknownword := v.unknownword, past := v.past, wordtest := v.wordtest },
      Status.Won)
  else
    let lifeno := if v.looselife = 1 then s.lifeno - 1 else s.lifeno
    ({ s with
        unknownword := v.unknownword, past := v.past, wordtest := v.wordtest
        lifeno := lifeno },
      if lifeno = 0 then Status.Lost else Status.InProgress)

/-- The turn loop of lines 69-141 run on a finite list of player inputs: the
loop goes on while turns end in progress, and stops at the first turn that
ends the round; the inputs after that turn are not read. -/
def playTurns (B : Build) : Game → List Turn → Game × Status
  | s, [] => (s, Status.InProgress)
  | s, t :: ts =>
    match turn B s t with
    | (s1, Status.InProgress) => playTurns B s1 ts
    | r => r

/-- One round of the outer loop (lines 43-141): the round is started on the
loaded word with the `wordtest` left by what ran before, then the turns are
played. -/
def playRound (B : Build) (wordtest : Int) (word : List Char) (ts : List Turn) :
    Game × Status :=
  playTurns B (startRound B wordtest word) ts

/-- The shape of the mask: as long as the word, and at each position the
placeholder or the character of the word. -/
def MaskOf (word mask : List Char) : Prop :=
  mask.length = word.length ∧
    ∀ i, i < word.length → mask[i]? = some '*' ∨ mask[i]? = word[i]?

instance (word mask : List Char) : Decidable (MaskOf word mask) := by
  unfold MaskOf
  infer_instance

/-- The library predicate `isspace` in the C locale: the space and the
characters 9 to 13.  These are the characters that `scanf` skips before
`%c` (after a blank in the format) and before `%s`, and at which `%s` stops. -/
def isspace (c : Char) : Bool :=
  c.toNat = 32 || (9 ≤ c.toNat && c.toNat ≤ 13)

/-- Lines 178-182: the `while` loop of `readfile`, on the bytes of the file.
`ch` is a `char` and line 178 compares the converted value with `EOF`, which
is -1.  The embedding takes `char` to be signed, as it must be for the loop to
end at the end of the file: the byte 255 then converts to -1 and ends the read
as the end of the file does.  Any other byte is stored at `word[j]` and `j` is
incremented.  A store past the end of the buffer is not modelled: the facts on
`readfile` are about files that fit. -/
def readfileLoop : List Char → Nat → List Char → List Char
  | [], _, word => word
  | ch :: rest, j, word =>
    if ch.toNat = 255 then word else readfileLoop rest (j + 1) (word.set j ch)

/-- Lines 154-190, `readfile(word)`: the loop starts at `j = 0`.  The file is
the one that `fopen` opened; asking for its name again is not modelled. -/
def readfile (word : List Char) (file : List Char) : List Char :=
  readfileLoop file 0 word

/-- Lines 48-55: the buffer `word` is cleared over its `MaxWordLenght`
elements, `readfile` fills it, and the secret word is the C string it holds:
the characters before the first zero byte. -/
def loadWord (file : List Char) : List Char :=
  (readfile (List.replicate MaxWordLenght NUL) file).takeWhile (fun c => c != NUL)

/-- The inputs that `scanf` can deliver: the letter read by `" %c"` is not a
white space, and the token read by `" %s"` holds none. -/
def Scanned (t : Turn) : Prop :=
  (t.worl = 'l' → isspace t.letterguess = false) ∧
    (t.worl = 'w' → ∀ c ∈ t.wordguess, isspace c = false)

instance (t : Turn) : Decidable (Scanned t) := by
  unfold Scanned
  infer_instance

/-! ## Auxiliary facts on the library functions and the letter loop -/

theorem toNat_injective (a b : Char) (h : (a.toNat : Int) - (b.toNat : Int) = 0) : a = b := by
  have h1 : a.toNat = b.toNat := by omega
  have h2 := congrArg Char.ofNat h1
  simpa [Char.ofNat_toNat] using h2

theorem strcmp_self (a : List Char) : strcmp a a = 0 := by
  induction a with
  | nil => rfl
  | cons x xs ih => simp [strcmp, ih]

theorem eq_of_strcmp_eq_zero :
    ∀ (a b : List Char), a.length = b.length → strcmp a b = 0 → a = b
  | [], [], _, _ => rfl
  | [], _ :: _, h, _ => by simp at h
  | _ :: _, [], h, _ => by simp at h
  | x :: xs, y :: ys, h, h0 => by
    by_cases hxy : x = y
    · subst hxy
      simp only [strcmp, if_true] at h0
      simp only [List.length_cons, Nat.add_right_cancel_iff] at h
      rw [eq_of_strcmp_eq_zero xs ys h h0]
    · simp only [strcmp, if_neg hxy] at h0
      exact absurd (toNat_injective x y h0) hxy

theorem strcmp_eq_zero_iff (a b : List Char) (h : a.length = b.length) :
    strcmp a b = 0 ↔ a = b :=
  ⟨eq_of_strcmp_eq_zero a b h, fun e => e ▸ strcmp_self a⟩

theorem letterLoop_length (w : List Char) (c : Char) :
    ∀ (n i : Nat) (v : TurnVars),
      (letterLoop w c n i v).unknownword.length = v.unknownword.length
  | 0, _, _ => rfl
  | n + 1, i, v => by
    simp only [letterLoop]
    rw [letterLoop_length w c n]
    split <;> simp

theorem letterLoop_getElem? (w : List Char) (c : Char) :
    ∀ (n i : Nat) (v : TurnVars) (j : Nat),
      (letterLoop w c n i v).unknownword[j]? =
        if i ≤ j ∧ j < i + n ∧ w[j]? = some c then
          (if j < v.unknownword.length then some c else none)
        else v.unknownword[j]?
  | 0, i, v, j => by
    have : ¬ (i ≤ j ∧ j < i + 0 ∧ w[j]? = some c) := by omega
    simp only [letterLoop, if_neg this]
  | n + 1, i, v, j => by
    simp only [letterLoop]
    rw [letterLoop_getElem? w c n]
    by_cases hi : w[i]? = some c
    · simp only [if_pos hi, List.length_set, List.getElem?_set]
      by_cases hij : i = j
      · subst hij
        have h1 : ¬ (i + 1 ≤ i ∧ i < i + 1 + n ∧ w[i]? = some c) := by omega
        have h2 : i ≤ i ∧ i < i + (n + 1) ∧ w[i]? = some c := ⟨le_refl _, by omega, hi⟩
        simp only [if_neg h1, if_pos h2, if_true]
      · simp only [if_neg hij]
        by_cases hc : w[j]? = some c
        · by_cases hr : i + 1 ≤ j ∧ j < i + 1 + n
          · have h1 : i + 1 ≤ j ∧ j < i + 1 + n ∧ w[j]? = some c := ⟨hr.1, hr.2, hc⟩
            have h2 : i ≤ j ∧ j < i + (n + 1) ∧ w[j]? = some c := ⟨by omega, by omega, hc⟩
            simp only [if_pos h1, if_pos h2]
          · have h1 : ¬ (i + 1 ≤ j ∧ j < i + 1 + n ∧ w[j]? = some c) := fun h => hr ⟨h.1, h.2.1⟩
            have h2 : ¬ (i ≤ j ∧ j < i + (n + 1) ∧ w[j]? = some c) := fun h => hr ⟨by omega, by omega⟩
            simp only [if_neg h1, if_neg h2]
        · have h1 : ¬ (i + 1 ≤ j ∧ j < i + 1 + n ∧ w[j]? = some c) := fun h => hc h.2.2
          have h2 : ¬ (i ≤ j ∧ j < i + (n + 1) ∧ w[j]? = some c) := fun h => hc h.2.2
          simp only [if_neg h1, if_neg h2]
    · simp only [if_neg hi]
      by_cases hij : i = j
      · subst hij
        have h1 : ¬ (i + 1 ≤ i ∧ i < i + 1 + n ∧ w[i]? = some c) := by omega
        have h2 : ¬ (i ≤ i ∧ i < i + (n + 1) ∧ w[i]? = some c) := fun h => hi h.2.2
        simp only [if_neg h1, if_neg h2]
      · by_cases hc : i + 1 ≤ j ∧ j < i + 1 + n ∧ w[j]? = some c
        · have h2 : i ≤ j ∧ j < i + (n + 1) ∧ w[j]? = some c := ⟨by omega, by omega, hc.2.2⟩
          simp only [if_pos hc, if_pos h2]
        · have h2 : ¬ (i ≤ j ∧ j < i + (n + 1) ∧ w[j]? = some c) :=
            fun h => hc ⟨by omega, by omega, h.2.2⟩
          simp only [if_neg hc, if_neg h2]

theorem letterLoop_looselife_zero (w : List Char) (c : Char) :
    ∀ (n i : Nat) (v : TurnVars), v.looselife = 0 → (letterLoop w c n i v).looselife = 0
  | 0, _, _, h => h
  | n + 1, i, v, h => by
    simp only [letterLoop]
    apply letterLoop_looselife_zero w c n
    split <;> simp [h]

theorem letterLoop_looselife_hit (w : List Char) (c : Char) :
    ∀ (n i : Nat) (v : TurnVars) (j : Nat), i ≤ j → j < i + n → w[j]? = some c →
      (letterLoop w c n i v).looselife = 0
  | 0, i, _, j, h1, h2, _ => by omega
  | n + 1, i, v, j, h1, h2, h3 => by
    simp only [letterLoop]
    by_cases hij : i = j
    · subst hij
      apply letterLoop_looselife_zero w c n
      simp [h3]
    · exact letterLoop_looselife_hit w c n (i + 1) _ j (by omega) (by omega) h3

theorem letterLoop_past (w : List Char) (c : Char) :
    ∀ (n i : Nat) (v : TurnVars), (letterLoop w c n i v).past = v.past
  | 0, _, _ => rfl
  | n + 1, i, v => by
    simp only [letterLoop]
    rw [letterLoop_past w c n]
    split <;> rfl

theorem letterLoop_wordtest (w : List Char) (c : Char) :
    ∀ (n i : Nat) (v : TurnVars), 0 < n →
      (letterLoop w c n i v).wordtest =
        strcmp (w ++ [NUL])
          ((letterLoop w c n i v).unknownword ++ [(letterLoop w c n i v).past])
  | 0, _, _, h => by omega
  | 1, i, v, _ => by
    simp only [letterLoop]
  | n + 2, i, v, _ => by
    rw [letterLoop]
    exact letterLoop_wordtest w c (n + 1) (i + 1) _ (by omega)

/-- The comparison of line 93 gives 0 exactly when the mask is the word and
the byte after the mask is the zero byte. -/
theorem strcmp_mask_eq_zero_iff (w m : List Char) (p : Char) (h : m.length = w.length) :
    strcmp (w ++ [NUL]) (m ++ [p]) = 0 ↔ m = w ∧ p = NUL := by
  rw [strcmp_eq_zero_iff _ _ (by simp [h])]
  constructor
  · intro e
    have h1 := List.append_inj e h.symm
    exact ⟨h1.1.symm, (List.cons.inj h1.2).1.symm⟩
  · rintro ⟨rfl, rfl⟩
    rfl

/-! ## Auxiliary facts on the bytes stored by `scanf` -/

theorem storedAll_length (cand : List Char) :
    ∀ (off : Int) (m : List Char), (storedAll cand off m).length = m.length
  | _, [] => rfl
  | off, _ :: cs => by
    simp only [storedAll, List.length_cons, storedAll_length cand (off + 1) cs]

theorem storedAll_getElem? (cand : List Char) :
    ∀ (m : List Char) (off : Int) (k : Nat),
      (storedAll cand off m)[k]? = (m[k]?).map (stored cand (off + k))
  | [], _, _ => by simp [storedAll]
  | c :: cs, off, 0 => by simp [storedAll]
  | c :: cs, off, k + 1 => by
    simp only [storedAll, List.getElem?_cons_succ]
    rw [storedAll_getElem? cand cs (off + 1) k]
    have : off + 1 + (k : Int) = off + ((k + 1 : Nat) : Int) := by push_cast; ring
    rw [this]

theorem stored_of_neg (cand : List Char) (off : Int) (old : Char) (h : off < 0) :
    stored cand off old = old := by
  have : ¬ (0 ≤ off) := by omega
  simp only [stored, if_neg this]

theorem stored_of_gt (cand : List Char) (off : Int) (old : Char)
    (h : (cand.length : Int) < off) : stored cand off old = old := by
  have h0 : 0 ≤ off := by omega
  have h1 : (cand ++ [NUL]).length ≤ off.toNat := by
    simp only [List.length_append, List.length_singleton]
    omega
  simp only [stored, if_pos h0, List.getD_eq_getElem?_getD, List.getElem?_eq_none h1,
    Option.getD_none]

theorem stored_of_eq (cand : List Char) (off : Int) (old : Char)
    (h : off = (cand.length : Int)) : stored cand off old = NUL := by
  have h0 : 0 ≤ off := by omega
  have h1 : off.toNat = cand.length := by omega
  simp [stored, if_pos h0, List.getD_eq_getElem?_getD, h1]

/-- A byte after the `scanf` of line 100 is the byte before it, the zero byte,
or a character of the candidate. -/
theorem stored_cases (cand : List Char) (off : Int) (old : Char) :
    stored cand off old = old ∨ stored cand off old = NUL ∨ stored cand off old ∈ cand := by
  by_cases h0 : 0 ≤ off
  · simp only [stored, if_pos h0, List.getD_eq_getElem?_getD]
    cases hk : (cand ++ [NUL])[off.toNat]? with
    | none => left; rfl
    | some x =>
      have hx : x ∈ cand ++ [NUL] := List.mem_iff_getElem?.2 ⟨_, hk⟩
      rcases List.mem_append.1 hx with h | h
      · right; right; exact h
      · right; left; exact List.mem_singleton.1 h
  · left
    simp only [stored, if_neg h0]

/-- The offsets of the `letterno` elements of `unknownword` from
`wordguess[0]` are at least `letterno`, or negative: the arrays are apart. -/
theorem gap_apart (B : Build) (letterno k : Nat) (hk : k < letterno) :
    (letterno : Int) ≤ B.gap letterno + k ∨ B.gap letterno + k < 0 := by
  unfold Build.gap
  split
  · left; push_cast; omega
  · right; push_cast; omega

/-- A candidate no longer than the word leaves in a byte of the mask the byte
it held or the zero byte. -/
theorem stored_mask_of_le (B : Build) (cand : List Char) (letterno k : Nat) (old : Char)
    (hk : k < letterno) (hc : cand.length ≤ letterno) :
    stored cand (B.gap letterno + k) old = old ∨
      stored cand (B.gap letterno + k) old = NUL := by
  rcases gap_apart B letterno k hk with h | h
  · by_cases he : B.gap letterno + k = (cand.length : Int)
    · right; exact stored_of_eq cand _ old he
    · left; exact stored_of_gt cand _ old (by omega)
  · left; exact stored_of_neg cand _ old h

/-- A candidate shorter than the word, which fits in `wordguess` with its
terminator, leaves the bytes of the mask as they are. -/
theorem stored_mask_of_lt (B : Build) (cand : List Char) (letterno k : Nat) (old : Char)
    (hk : k < letterno) (hc : cand.length < letterno) :
    stored cand (B.gap letterno + k) old = old := by
  rcases gap_apart B letterno k hk with h | h
  · exact stored_of_gt cand _ old (by omega)
  · exact stored_of_neg cand _ old h

theorem storedAll_of_lt (B : Build) (cand m : List Char) (letterno : Nat)
    (hm : m.length ≤ letterno) (hc : cand.length < letterno) :
    storedAll cand (B.gap letterno) m = m := by
  apply List.ext_getElem?
  intro k
  rw [storedAll_getElem?]
  cases hk : m[k]? with
  | none => rfl
  | some x =>
    have hlt : k < m.length := by
      by_contra hge
      rw [List.getElem?_eq_none (by omega)] at hk
      cases hk
    simp only [Option.map_some']
    rw [stored_mask_of_lt B cand letterno k x (by omega) hc]

/-! ## Auxiliary facts on one turn -/

theorem guess_letter (B : Build) (s : Game) (t : Turn) (h : t.worl = 'l') :
    guess B s t = letterLoop s.word t.letterguess s.word.length 0
      { unknownword := s.unknownword, past := s.past, looselife := 1,
        wordtest := s.wordtest } := by
  simp [guess, h, strlen]

theorem guess_word (B : Build) (s : Game) (t : Turn) (h : t.worl = 'w') :
    guess B s t =
      { unknownword := storedAll t.wordguess (B.gap s.word.length) s.unknownword
        past := stored t.wordguess (B.gap s.word.length + s.word.length) s.past
        looselife := 1
        wordtest := if s.word.length ≠ t.wordguess.length then 1
          else strcmp s.word t.wordguess } := by
  have hl : ¬ (t.worl = 'l') := by rw [h]; decide
  simp only [guess, if_neg hl, if_pos h, strlen]
  split <;> rfl

theorem guess_other (B : Build) (s : Game) (t : Turn) (hl : t.worl ≠ 'l')
    (hw : t.worl ≠ 'w') :
    guess B s t =
      { unknownword := s.unknownword, past := s.past, looselife := 2,
        wordtest := s.wordtest } := by
  simp only [guess, if_neg hl, if_neg hw]

theorem guess_word_wordtest (B : Build) (s : Game) (t : Turn) (h : t.worl = 'w') :
    (guess B s t).wordtest = 0 ↔ t.wordguess = s.word := by
  rw [guess_word B s t h]
  by_cases hlen : s.word.length = t.wordguess.length
  · have : ¬ (s.word.length ≠ t.wordguess.length) := fun h => h hlen
    simp only [if_neg this]
    rw [strcmp_eq_zero_iff _ _ hlen]
    exact eq_comm
  · simp only [if_pos hlen]
    constructor
    · intro h1; exact absurd h1 (by decide)
    · intro h1; rw [h1] at hlen; exact absurd rfl hlen

theorem turn_of_zero (B : Build) (s : Game) (t : Turn) (h : (guess B s t).wordtest = 0) :
    turn B s t =
      ({ s with
          unknownword := (guess B s t).unknownword
          past := (guess B s t).past
          wordtest := (guess B s t).wordtest },
        Status.Won) := by
  simp only [turn, if_pos h]

theorem turn_of_ne_zero (B : Build) (s : Game) (t : Turn)
    (h : (guess B s t).wordtest ≠ 0) :
    turn B s t =
      ({ s with
          unknownword := (guess B s t).unknownword
          past := (guess B s t).past
          wordtest := (guess B s t).wordtest
          lifeno := if (guess B s t).looselife = 1 then s.lifeno - 1 else s.lifeno },
        if (if (guess B s t).looselife = 1 then s.lifeno - 1 else s.lifeno) = 0 then
          Status.Lost
        else Status.InProgress) := by
  simp only [turn, if_neg h]

theorem turn_word (B : Build) (s : Game) (t : Turn) : (turn B s t).1.word = s.word := by
  by_cases h : (guess B s t).wordtest = 0
  · rw [turn_of_zero B s t h]
  · rw [turn_of_ne_zero B s t h]

theorem turn_unknownword (B : Build) (s : Game) (t : Turn) :
    (turn B s t).1.unknownword = (guess B s t).unknownword := by
  by_cases h : (guess B s t).wordtest = 0
  · rw [turn_of_zero B s t h]
  · rw [turn_of_ne_zero B s t h]

theorem turn_past (B : Build) (s : Game) (t : Turn) :
    (turn B s t).1.past = (guess B s t).past := by
  by_cases h : (guess B s t).wordtest = 0
  · rw [turn_of_zero B s t h]
  · rw [turn_of_ne_zero B s t h]

theorem turn_wordtest (B : Build) (s : Game) (t : Turn) :
    (turn B s t).1.wordtest = (guess B s t).wordtest := by
  by_cases h : (guess B s t).wordtest = 0
  · rw [turn_of_zero B s t h]
  · rw [turn_of_ne_zero B s t h]

theorem turn_lifeno (B : Build) (s : Game) (t : Turn) :
    (turn B s t).1.lifeno =
      if (guess B s t).wordtest = 0 then s.lifeno
      else if (guess B s t).looselife = 1 then s.lifeno - 1 else s.lifeno := by
  by_cases h : (guess B s t).wordtest = 0
  · rw [turn_of_zero B s t h, if_pos h]
  · rw [turn_of_ne_zero B s t h, if_neg h]

theorem turn_status (B : Build) (s : Game) (t : Turn) :
    (turn B s t).2 =
      if (guess B s t).wordtest = 0 then Status.Won
      else if (turn B s t).1.lifeno = 0 then Status.Lost else Status.InProgress := by
  by_cases h : (guess B s t).wordtest = 0
  · rw [if_pos h, turn_of_zero B s t h]
  · rw [if_neg h, turn_of_ne_zero B s t h]

theorem turn_won_iff (B : Build) (s : Game) (t : Turn) :
    (turn B s t).2 = Status.Won ↔ (guess B s t).wordtest = 0 := by
  rw [turn_status]
  by_cases h : (guess B s t).wordtest = 0
  · simp [h]
  · simp only [if_neg h]
    constructor
    · intro h1
      split at h1 <;> cases h1
    · intro h1; exact absurd h1 h

theorem turn_lifeno_le (B : Build) (s : Game) (t : Turn) :
    (turn B s t).1.lifeno ≤ s.lifeno := by
  rw [turn_lifeno]
  split
  · exact le_refl _
  · split
    · omega
    · exact le_refl _

theorem turn_lifeno_ge (B : Build) (s : Game) (t : Turn) :
    s.lifeno - 1 ≤ (turn B s t).1.lifeno := by
  rw [turn_lifeno]
  split
  · omega
  · split
    · exact le_refl _
    · omega

theorem turn_inProgress_lifeno (B : Build) (s : Game) (t : Turn)
    (h : (turn B s t).2 = Status.InProgress) : (turn B s t).1.lifeno ≠ 0 := by
  rw [turn_status] at h
  split at h
  · cases h
  · split at h
    · cases h
    · assumption

/-- A letter guess leaves the byte after the mask as it is. -/
theorem guess_letter_past (B : Build) (s : Game) (t : Turn) (hl : t.worl = 'l') :
    (guess B s t).past = s.past := by
  rw [guess_letter B s t hl, letterLoop_past]

/-- After a letter guess on a word that is not empty, `wordtest` is the
comparison of the word with the updated mask and the byte after it
(line 93). -/
theorem guess_letter_wordtest (B : Build) (s : Game) (t : Turn) (hl : t.worl = 'l')
    (hne : s.word ≠ []) :
    (guess B s t).wordtest =
      strcmp (s.word ++ [NUL]) ((guess B s t).unknownword ++ [(guess B s t).past]) := by
  rw [guess_letter B s t hl]
  exact letterLoop_wordtest _ _ _ _ _ (List.length_pos.2 hne)

theorem guess_length (B : Build) (s : Game) (t : Turn) :
    (guess B s t).unknownword.length = s.unknownword.length := by
  by_cases hl : t.worl = 'l'
  · rw [guess_letter B s t hl, letterLoop_length]
  · by_cases hw : t.worl = 'w'
    · rw [guess_word B s t hw, storedAll_length]
    · rw [guess_other B s t hl hw]

/-- After a letter guess on a word that is not empty, with a mask as long as
the word, `wordtest` is 0 exactly when the updated mask is the word and the
byte after the mask is the zero byte. -/
theorem guess_letter_wordtest_zero_iff (B : Build) (s : Game) (t : Turn)
    (hl : t.worl = 'l') (hne : s.word ≠ []) (hlen : s.unknownword.length = s.word.length) :
    (guess B s t).wordtest = 0 ↔ (guess B s t).unknownword = s.word ∧ s.past = NUL := by
  rw [guess_letter_wordtest B s t hl hne,
    strcmp_mask_eq_zero_iff _ _ _ (by rw [guess_length, hlen]), guess_letter_past B s t hl]

/-- A letter guess does not win while the byte after the mask is not the zero
byte. -/
theorem turn_letter_not_won (B : Build) (s : Game) (t : Turn) (hl : t.worl = 'l')
    (hne : s.word ≠ []) (hlen : s.unknownword.length = s.word.length)
    (hpast : s.past ≠ NUL) : (turn B s t).2 ≠ Status.Won := by
  rw [Ne, turn_won_iff, guess_letter_wordtest_zero_iff B s t hl hne hlen]
  exact fun h => hpast h.2

/-- A letter guess of a letter of the word clears `looselife`. -/
theorem guess_letter_hit_looselife (B : Build) (s : Game) (t : Turn) (hl : t.worl = 'l')
    (hin : t.letterguess ∈ s.word) : (guess B s t).looselife = 0 := by
  obtain ⟨j, hj⟩ := List.mem_iff_getElem?.1 hin
  have hlt : j < s.word.length := by
    by_contra hge
    rw [List.getElem?_eq_none (by omega)] at hj
    cases hj
  rw [guess_letter B s t hl]
  exact letterLoop_looselife_hit _ _ _ _ _ j (Nat.zero_le _) (by omega) hj

theorem turn_letter_hit_lifeno (B : Build) (s : Game) (t : Turn) (hl : t.worl = 'l')
    (hin : t.letterguess ∈ s.word) : (turn B s t).1.lifeno = s.lifeno := by
  rw [turn_lifeno, guess_letter_hit_looselife B s t hl hin]
  split
  · rfl
  · rfl

/-- A word guess whose candidate is shorter than the word, so that it fits in
`wordguess` with its terminator, leaves the mask as it is. -/
theorem turn_word_fits_unknownword (B : Build) (s : Game) (t : Turn) (hw : t.worl = 'w')
    (hlen : s.unknownword.length = s.word.length)
    (hfit : t.wordguess.length < s.word.length) :
    (turn B s t).1.unknownword = s.unknownword := by
  rw [turn_unknownword, guess_word B s t hw]
  exact storedAll_of_lt B _ _ _ (by omega) hfit

/-! ## Auxiliary facts on the turn loop -/

theorem playTurns_nil (B : Build) (s : Game) :
    playTurns B s [] = (s, Status.InProgress) := rfl

theorem playTurns_cons_inProgress (B : Build) (s : Game) (t : Turn) (ts : List Turn)
    (h : (turn B s t).2 = Status.InProgress) :
    playTurns B s (t :: ts) = playTurns B (turn B s t).1 ts := by
  rw [playTurns]
  generalize turn B s t = r at h
  obtain ⟨s1, st⟩ := r
  cases st
  · rfl
  · cases h
  · cases h

theorem playTurns_cons_ended (B : Build) (s : Game) (t : Turn) (ts : List Turn)
    (h : (turn B s t).2 ≠ Status.InProgress) :
    playTurns B s (t :: ts) = turn B s t := by
  rw [playTurns]
  generalize turn B s t = r at h
  obtain ⟨s1, st⟩ := r
  cases st
  · exact absurd rfl h
  · rfl
  · rfl

theorem playTurns_append_ended (B : Build) :
    ∀ (pre : List Turn) (s : Game) (rest : List Turn),
      (playTurns B s pre).2 ≠ Status.InProgress →
      playTurns B s (pre ++ rest) = playTurns B s pre
  | [], s, _, h => absurd (playTurns_nil B s ▸ rfl) h
  | t :: pre, s, rest, h => by
    rw [List.cons_append]
    by_cases hp : (turn B s t).2 = Status.InProgress
    · rw [playTurns_cons_inProgress B s t pre hp] at h
      rw [playTurns_cons_inProgress B s t (pre ++ rest) hp,
        playTurns_cons_inProgress B s t pre hp]
      exact playTurns_append_ended B pre (turn B s t).1 rest h
    · rw [playTurns_cons_ended B s t (pre ++ rest) hp, playTurns_cons_ended B s t pre hp]

theorem playTurns_lifeno_bounds (B : Build) :
    ∀ (ts : List Turn) (s : Game), 1 ≤ s.lifeno → s.lifeno ≤ 10 →
      0 ≤ (playTurns B s ts).1.lifeno ∧ (playTurns B s ts).1.lifeno ≤ 10
  | [], s, h1, h2 => by
    rw [playTurns_nil]
    exact ⟨by show 0 ≤ s.lifeno; omega, h2⟩
  | t :: ts, s, h1, h2 => by
    have hle := turn_lifeno_le B s t
    have hge := turn_lifeno_ge B s t
    by_cases h : (turn B s t).2 = Status.InProgress
    · rw [playTurns_cons_inProgress B s t ts h]
      have hne := turn_inProgress_lifeno B s t h
      exact playTurns_lifeno_bounds B ts (turn B s t).1 (by omega) (by omega)
    · rw [playTurns_cons_ended B s t ts h]
      exact ⟨by omega, by omega⟩

/-- A state in which the turn loop goes on has at least one life, when the
loop was entered with at least one. -/
theorem playTurns_inProgress_lifeno (B : Build) :
    ∀ (ts : List Turn) (s : Game), 1 ≤ s.lifeno →
      (playTurns B s ts).2 = Status.InProgress → 1 ≤ (playTurns B s ts).1.lifeno
  | [], _, h1, _ => h1
  | t :: ts, s, h1, hp => by
    have hge := turn_lifeno_ge B s t
    by_cases h : (turn B s t).2 = Status.InProgress
    · rw [playTurns_cons_inProgress B s t ts h] at hp ⊢
      have hne := turn_inProgress_lifeno B s t h
      exact playTurns_inProgress_lifeno B ts (turn B s t).1 (by omega) hp
    · rw [playTurns_cons_ended B s t ts h] at hp
      exact absurd hp h

/-- A round that is won leaves `wordtest` at 0. -/
theorem playTurns_won_wordtest (B : Build) :
    ∀ (ts : List Turn) (s : Game),
      (playTurns B s ts).2 = Status.Won → (playTurns B s ts).1.wordtest = 0
  | [], s, h => by rw [playTurns_nil] at h; cases h
  | t :: ts, s, h => by
    by_cases hp : (turn B s t).2 = Status.InProgress
    · rw [playTurns_cons_inProgress B s t ts hp] at h ⊢
      exact playTurns_won_wordtest B ts (turn B s t).1 h
    · rw [playTurns_cons_ended B s t ts hp] at h ⊢
      rw [turn_wordtest]
      exact (turn_won_iff B s t).1 h

/-- The word branch does not read `wordtest`: the turn of a word guess is the
same whatever value `wordtest` held before it. -/
theorem turn_word_wordtest_irrelevant (B : Build) (s : Game) (t : Turn) (k : Int)
    (hw : t.worl = 'w') : turn B { s with wordtest := k } t = turn B s t := by
  have hg : guess B { s with wordtest := k } t = guess B s t := by
    rw [guess_word B _ t hw, guess_word B s t hw]
  by_cases h0 : (guess B s t).wordtest = 0
  · rw [turn_of_zero B s t h0, turn_of_zero B _ t (by rw [hg]; exact h0), hg]
  · rw [turn_of_ne_zero B s t h0, turn_of_ne_zero B _ t (by rw [hg]; exact h0), hg]

/-- A turn whose selector is neither `l` nor `w` leaves the whole state as it
is and the round in progress, provided `wordtest` is not 0 when the turn
starts (and a life is left). -/
theorem turn_other_of_wordtest_ne_zero (B : Build) (s : Game) (t : Turn)
    (hl : t.worl ≠ 'l') (hw : t.worl ≠ 'w') (h0 : s.wordtest ≠ 0) (h1 : s.lifeno ≠ 0) :
    turn B s t = (s, Status.InProgress) := by
  have hg := guess_other B s t hl hw
  have hwt : (guess B s t).wordtest ≠ 0 := by rw [hg]; exact h0
  have h2 : ¬ ((guess B s t).looselife = 1) := by
    rw [hg]
    show ¬ ((2 : Int) = 1)
    decide
  rw [turn_of_ne_zero B s t hwt, if_neg h2, if_neg h1, hg]

/-! ## Auxiliary facts on the shape of the mask -/

theorem maskOf_startRound (B : Build) (wordtest : Int) (w : List Char) :
    MaskOf (startRound B wordtest w).word (startRound B wordtest w).unknownword := by
  refine ⟨by simp [startRound, strlen], fun i hi => Or.inl ?_⟩
  have hi1 : i < w.length := hi
  simp [startRound, strlen, List.getElem?_replicate, hi1]

/-- On inputs whose word candidates are shorter than the word, so that each
fits in `wordguess` with its terminator, a turn keeps the shape of the
mask. -/
theorem maskOf_turn (B : Build) (s : Game) (t : Turn) (h : MaskOf s.word s.unknownword)
    (hfit : t.worl = 'w' → t.wordguess.length < s.word.length) :
    MaskOf (turn B s t).1.word (turn B s t).1.unknownword := by
  rw [turn_word]
  by_cases hl : t.worl = 'l'
  · rw [turn_unknownword]
    refine ⟨by rw [guess_length]; exact h.1, fun i hi => ?_⟩
    rw [guess_letter B s t hl, letterLoop_getElem?]
    split
    · rename_i hc
      right
      rw [hc.2.2, if_pos (by rw [h.1]; exact hi)]
    · exact h.2 i hi
  · by_cases hw : t.worl = 'w'
    · rw [turn_word_fits_unknownword B s t hw h.1 (hfit hw)]
      exact h
    · rw [turn_unknownword, guess_other B s t hl hw]
      exact h

theorem maskOf_playTurns (B : Build) :
    ∀ (ts : List Turn) (s : Game), MaskOf s.word s.unknownword →
      (∀ t ∈ ts, t.worl = 'w' → t.wordguess.length < s.word.length) →
      (playTurns B s ts).1.word = s.word ∧
        MaskOf (playTurns B s ts).1.word (playTurns B s ts).1.unknownword
  | [], s, h, _ => ⟨rfl, h⟩
  | t :: ts, s, h, hfit => by
    have h1 := maskOf_turn B s t h (hfit t (List.mem_cons_self _ _))
    by_cases hp : (turn B s t).2 = Status.InProgress
    · rw [playTurns_cons_inProgress B s t ts hp]
      have ih := maskOf_playTurns B ts (turn B s t).1 h1
        (fun u hu => by rw [turn_word]; exact hfit u (List.mem_cons_of_mem _ hu))
      exact ⟨by rw [ih.1, turn_word], ih.2⟩
    · rw [playTurns_cons_ended B s t ts hp]
      exact ⟨turn_word B s t, h1⟩

/-- A word guess whose candidate is no longer than the word does not complete
the mask: a mask that is not the word before the turn is not the word after
it. -/
theorem turn_word_not_revealed (B : Build) (s : Game) (t : Turn) (hw : t.worl = 'w')
    (hlen : s.unknownword.length = s.word.length) (hnul : NUL ∉ s.word)
    (hc : t.wordguess.length ≤ s.word.length) (hne : s.unknownword ≠ s.word) :
    (turn B s t).1.unknownword ≠ s.word := by
  intro e
  apply hne
  apply List.ext_getElem?
  intro k
  have hk : (turn B s t).1.unknownword[k]? = s.word[k]? := by rw [e]
  rw [turn_unknownword, guess_word B s t hw, storedAll_getElem?] at hk
  cases hm : s.unknownword[k]? with
  | none =>
    rw [hm] at hk
    exact hk
  | some x =>
    have hlt : k < s.word.length := by
      by_contra hge
      rw [List.getElem?_eq_none (by omega)] at hm
      cases hm
    rw [hm, Option.map_some'] at hk
    rcases stored_mask_of_le B t.wordguess s.word.length k x hlt hc with h | h
    · rw [h] at hk
      exact hk
    · rw [h] at hk
      exact absurd (List.mem_iff_getElem?.2 ⟨k, hk.symm⟩) hnul

/-! ## Auxiliary facts on `readfile` and on words that hold a white space -/

theorem readfileLoop_append :
    ∀ (file pre zs : List Char), file.length ≤ zs.length →
      (∀ c ∈ file, c.toNat ≠ 255) →
      readfileLoop file pre.length (pre ++ zs) = pre ++ file ++ zs.drop file.length
  | [], pre, zs, _, _ => by simp [readfileLoop]
  | ch :: rest, pre, [], h, _ => by simp at h
  | ch :: rest, pre, z :: zs, h, hb => by
    have hset : (pre ++ z :: zs).set pre.length ch = (pre ++ [ch]) ++ zs := by simp
    have hlen : pre.length + 1 = (pre ++ [ch]).length := by simp
    have hch : ch.toNat ≠ 255 := hb ch (List.mem_cons_self _ _)
    rw [readfileLoop, if_neg hch, hset, hlen,
      readfileLoop_append rest (pre ++ [ch]) zs (by simpa using h)
        (fun c hc => hb c (List.mem_cons_of_mem _ hc))]
    simp

theorem takeWhile_before_NUL :
    ∀ (file rest : List Char), NUL ∉ file →
      (file ++ NUL :: rest).takeWhile (fun c => c != NUL) = file
  | [], rest, _ => by simp [List.takeWhile_cons]
  | x :: xs, rest, h => by
    have hx : x ≠ NUL := fun e => h (e ▸ List.mem_cons_self _ _)
    have hxs : NUL ∉ xs := fun e => h (List.mem_cons_of_mem _ e)
    rw [List.cons_append, List.takeWhile_cons, takeWhile_before_NUL xs rest hxs]
    simp [hx]

/-- A file of fewer than `MaxWordLenght` bytes, none of them the zero byte or
the byte 255, is loaded as it is. -/
theorem loadWord_eq (file : List Char) (hlen : file.length < MaxWordLenght)
    (hnul : NUL ∉ file) (heof : ∀ c ∈ file, c.toNat ≠ 255) : loadWord file = file := by
  have h1 : file.length ≤ (List.replicate MaxWordLenght NUL).length := by
    rw [List.length_replicate]; omega
  have h2 := readfileLoop_append file [] (List.replicate MaxWordLenght NUL) h1 heof
  simp only [List.length_nil, List.nil_append, List.drop_replicate] at h2
  obtain ⟨k, hk⟩ : ∃ k, MaxWordLenght - file.length = k + 1 :=
    ⟨MaxWordLenght - file.length - 1, by omega⟩
  rw [hk, List.replicate_succ] at h2
  rw [loadWord, readfile, h2]
  exact takeWhile_before_NUL file _ hnul

/-- On a word with a white space at position `p`, a turn on scanned input
that starts with a mask that does not show that white space and with
`wordtest` not 0 does not win, and leaves such a mask and `wordtest` not 0. -/
theorem turn_whitespace_word (B : Build) (s : Game) (t : Turn) (p : Nat) (ws : Char)
    (hp : s.word[p]? = some ws) (hws : isspace ws = true)
    (hlen : s.unknownword.length = s.word.length) (hm : s.unknownword[p]? ≠ some ws)
    (hwt : s.wordtest ≠ 0) (ht : Scanned t) :
    (turn B s t).2 ≠ Status.Won ∧ (turn B s t).1.unknownword[p]? ≠ some ws ∧
      (turn B s t).1.wordtest ≠ 0 := by
  have hnul : ws ≠ NUL := by
    intro e
    rw [e] at hws
    exact absurd hws (by decide)
  have hplt : p < s.word.length := by
    by_contra hge
    rw [List.getElem?_eq_none (by omega)] at hp
    cases hp
  have hne : s.word ≠ [] := fun e => by rw [e] at hplt; exact absurd hplt (by simp)
  have hmask : (guess B s t).unknownword[p]? ≠ some ws := by
    by_cases hl : t.worl = 'l'
    · have hc : ¬ (0 ≤ p ∧ p < 0 + s.word.length ∧ s.word[p]? = some t.letterguess) := by
        rintro ⟨_, _, h⟩
        rw [hp] at h
        have h1 := ht.1 hl
        rw [← Option.some.inj h, hws] at h1
        cases h1
      rw [guess_letter B s t hl, letterLoop_getElem?, if_neg hc]
      exact hm
    · by_cases hw : t.worl = 'w'
      · rw [guess_word B s t hw, storedAll_getElem?]
        cases hx : s.unknownword[p]? with
        | none => simp
        | some x =>
          rw [Option.map_some']
          intro e
          have e1 := Option.some.inj e
          rcases stored_cases t.wordguess (B.gap s.word.length + p) x with h | h | h
          · rw [h] at e1
            rw [hx, e1] at hm
            exact hm rfl
          · rw [h] at e1
            exact hnul e1.symm
          · rw [e1] at h
            have h1 := ht.2 hw ws h
            rw [hws] at h1
            cases h1
      · rw [guess_other B s t hl hw]; exact hm
  have hg : (guess B s t).wordtest ≠ 0 := by
    by_cases hl : t.worl = 'l'
    · rw [Ne, guess_letter_wordtest_zero_iff B s t hl hne hlen]
      rintro ⟨e, _⟩
      rw [e] at hmask
      exact hmask hp
    · by_cases hw : t.worl = 'w'
      · rw [Ne, guess_word_wordtest B s t hw]
        intro e
        have hmem : ws ∈ t.wordguess := by
          rw [e]; exact List.mem_iff_getElem?.2 ⟨p, hp⟩
        have h1 := ht.2 hw ws hmem
        rw [hws] at h1
        cases h1
      · rw [guess_other B s t hl hw]; exact hwt
  refine ⟨?_, ?_, ?_⟩
  · rw [Ne, turn_won_iff]; exact hg
  · rw [turn_unknownword]; exact hmask
  · rw [turn_wordtest]; exact hg

theorem playTurns_whitespace_word (B : Build) (p : Nat) (ws : Char)
    (hws : isspace ws = true) :
    ∀ (ts : List Turn) (s : Game), s.word[p]? = some ws →
      s.unknownword.length = s.word.length → s.unknownword[p]? ≠ some ws →
      s.wordtest ≠ 0 → (∀ t ∈ ts, Scanned t) →
      (playTurns B s ts).2 ≠ Status.Won ∧ (playTurns B s ts).1.unknownword[p]? ≠ some ws
  | [], s, _, _, hm, _, _ =>
    ⟨by rw [playTurns_nil]; exact fun h => Status.noConfusion h, hm⟩
  | t :: ts, s, hp, hlen, hm, hwt, hts => by
    have h := turn_whitespace_word B s t p ws hp hws hlen hm hwt
      (hts t (List.mem_cons_self _ _))
    by_cases hq : (turn B s t).2 = Status.InProgress
    · rw [playTurns_cons_inProgress B s t ts hq]
      exact playTurns_whitespace_word B p ws hws ts (turn B s t).1
        (by rw [turn_word]; exact hp)
        (by rw [turn_unknownword, guess_length, turn_word]; exact hlen) h.2.1 h.2.2
        (fun u hu => hts u (List.mem_cons_of_mem _ hu))
    · rw [playTurns_cons_ended B s t ts hq]
      exact ⟨h.1, h.2.1⟩

/-- In a build whose byte of line 64 is not zero, a round played by letter
guesses only, on a word that is not empty, is never won. -/
theorem playTurns_letters_not_won (B : Build) :
    ∀ (ts : List Turn) (s : Game), (∀ t ∈ ts, t.worl = 'l') → s.word ≠ [] →
      s.unknownword.length = s.word.length → s.past ≠ NUL →
      (playTurns B s ts).2 ≠ Status.Won
  | [], s, _, _, _, _ => by rw [playTurns_nil]; exact fun h => Status.noConfusion h
  | t :: ts, s, hl, hne, hlen, hpast => by
    have hl1 := hl t (List.mem_cons_self _ _)
    have hnw := turn_letter_not_won B s t hl1 hne hlen hpast
    by_cases hq : (turn B s t).2 = Status.InProgress
    · rw [playTurns_cons_inProgress B s t ts hq]
      exact playTurns_letters_not_won B ts (turn B s t).1
        (fun u hu => hl u (List.mem_cons_of_mem _ hu))
        (by rw [turn_word]; exact hne)
        (by rw [turn_unknownword, guess_length, turn_word]; exact hlen)
        (by rw [turn_past, guess_letter_past B s t hl1]; exact hpast)
    · rw [playTurns_cons_ended B s t ts hq]
      exact hnw

/-! ## The claims -/

/-- Claim C1: for every loaded word `w`, whatever `wordtest` holds and in every
build, at the start of a round, before the first turn, the mask has the length
of `w` and holds the placeholder at every position, the number of lives is 10,
and the round is in progress. -/
theorem round_start (B : Build) (wordtest : Int) (w : List Char) :
    (playRound B wordtest w []).1.word = w ∧
    (playRound B wordtest w []).1.unknownword.length = w.length ∧
    (playRound B wordtest w []).1.unknownword = List.replicate w.length '*' ∧
    (playRound B wordtest w []).1.lifeno = 10 ∧
    (playRound B wordtest w []).2 = Status.InProgress := by
  refine ⟨rfl, ?_, rfl, rfl, rfl⟩
  simp [playRound, playTurns, startRound, strlen]

/-- Claim C2: in a state of the turn loop (the mask being as long as the
word), a letter guess of a letter that occurs in the word sets the mask to
that letter at every position where the word has it, leaves every other
position of the mask as it was, and leaves the number of lives unchanged. -/
theorem letter_hit_reveals_all (B : Build) (s : Game) (t : Turn) (hl : t.worl = 'l')
    (hlen : s.unknownword.length = s.word.length) (hin : t.letterguess ∈ s.word) :
    (turn B s t).1.unknownword.length = s.word.length ∧
    (∀ i : Nat, (turn B s t).1.unknownword[i]? =
      if s.word[i]? = some t.letterguess then some t.letterguess else s.unknownword[i]?) ∧
    (turn B s t).1.lifeno = s.lifeno := by
  refine ⟨?_, ?_, turn_letter_hit_lifeno B s t hl hin⟩
  · rw [turn_unknownword, guess_length, hlen]
  · intro i
    rw [turn_unknownword, guess_letter B s t hl, letterLoop_getElem?]
    by_cases hi : s.word[i]? = some t.letterguess
    · have hlt : i < s.word.length := by
        by_contra hge
        rw [List.getElem?_eq_none (by omega)] at hi
        cases hi
      have hc : 0 ≤ i ∧ i < 0 + s.word.length ∧ s.word[i]? = some t.letterguess :=
        ⟨Nat.zero_le _, by omega, hi⟩
      have hm : i < s.unknownword.length := by omega
      rw [if_pos hc, if_pos hi, if_pos hm]
    · have hc : ¬ (0 ≤ i ∧ i < 0 + s.word.length ∧ s.word[i]? = some t.letterguess) :=
        fun h => hi h.2.2
      rw [if_neg hc, if_neg hi]

/-- Witness of `letter_hit_reveals_all`: word `aba`, mask `***`, letter `a`. -/
theorem letter_hit_reveals_all_witness :
    (turn sampleBuild (startRound sampleBuild 7 ['a', 'b', 'a']) ⟨'l', 'a', []⟩).1.unknownword =
      ['a', '*', 'a'] ∧
    (turn sampleBuild (startRound sampleBuild 7 ['a', 'b', 'a'])
      ⟨'l', 'a', []⟩).1.unknownword.length = 3 ∧
    (∀ i : Nat,
      (turn sampleBuild (startRound sampleBuild 7 ['a', 'b', 'a'])
        ⟨'l', 'a', []⟩).1.unknownword[i]? =
      if (['a', 'b', 'a'] : List Char)[i]? = some 'a' then some 'a'
      else (['*', '*', '*'] : List Char)[i]?) ∧
    (turn sampleBuild (startRound sampleBuild 7 ['a', 'b', 'a']) ⟨'l', 'a', []⟩).1.lifeno = 10 :=
  ⟨by decide,
    letter_hit_reveals_all sampleBuild (startRound sampleBuild 7 ['a', 'b', 'a'])
      ⟨'l', 'a', []⟩ rfl (by decide) (by decide)⟩

/-- Claim C4: in every state of the turn loop, a word guess ends the round as
won if and only if the candidate is the secret word, character for character
and of the same length; and a word guess of the secret word itself takes no
life. -/
theorem word_guess_won_iff (B : Build) (s : Game) (t : Turn) (hw : t.worl = 'w') :
    ((turn B s t).2 = Status.Won ↔ t.wordguess = s.word) ∧
    ((turn B s t).2 = Status.Won → (turn B s t).1.lifeno = s.lifeno) := by
  refine ⟨?_, fun h => ?_⟩
  · rw [turn_won_iff, guess_word_wordtest B s t hw]
  · rw [turn_won_iff] at h
    rw [turn_lifeno, if_pos h]

/-- Witness of `word_guess_won_iff`: word `CAT`; the candidate `CAT` wins with
10 lives, the candidates `cat` and `CA` do not win. -/
theorem word_guess_won_iff_witness :
    (((turn sampleBuild (startRound sampleBuild 7 ['C', 'A', 'T'])
          ⟨'w', 'a', ['C', 'A', 'T']⟩).2 = Status.Won ↔
        (['C', 'A', 'T'] : List Char) = ['C', 'A', 'T']) ∧
      ((turn sampleBuild (startRound sampleBuild 7 ['C', 'A', 'T'])
          ⟨'w', 'a', ['C', 'A', 'T']⟩).2 = Status.Won →
        (turn sampleBuild (startRound sampleBuild 7 ['C', 'A', 'T'])
          ⟨'w', 'a', ['C', 'A', 'T']⟩).1.lifeno = 10)) ∧
    (turn sampleBuild (startRound sampleBuild 7 ['C', 'A', 'T'])
      ⟨'w', 'a', ['C', 'A', 'T']⟩).2 = Status.Won ∧
    (turn sampleBuild (startRound sampleBuild 7 ['C', 'A', 'T'])
      ⟨'w', 'a', ['c', 'a', 't']⟩).2 = Status.InProgress ∧
    (turn sampleBuild (startRound sampleBuild 7 ['C', 'A', 'T'])
      ⟨'w', 'a', ['C', 'A']⟩).2 = Status.InProgress :=
  ⟨word_guess_won_iff sampleBuild (startRound sampleBuild 7 ['C', 'A', 'T'])
      ⟨'w', 'a', ['C', 'A', 'T']⟩ rfl,
    by decide, by decide, by decide⟩

/-- Counterexample to claim C5 as stated: word `CAT`, mask `C**` after the
letter `C`; the word guess `CAT` wins the round and the mask is still `C**`,
not `CAT`. -/
theorem word_match_keeps_mask :
    playRound sampleBuild 7 ['C', 'A', 'T'] [⟨'l', 'C', []⟩] =
      (⟨['C', 'A', 'T'], ['C', '*', '*'], 10, 23, Char.ofNat 8⟩, Status.InProgress) ∧
    turn sampleBuild ⟨['C', 'A', 'T'], ['C', '*', '*'], 10, 23, Char.ofNat 8⟩
        ⟨'w', 'C', ['C', 'A', 'T']⟩ =
      (⟨['C', 'A', 'T'], ['C', '*', '*'], 10, 0, Char.ofNat 8⟩, Status.Won) ∧
    (turn sampleBuild ⟨['C', 'A', 'T'], ['C', '*', '*'], 10, 23, Char.ofNat 8⟩
        ⟨'w', 'C', ['C', 'A', 'T']⟩).1.unknownword ≠ ['C', 'A', 'T'] := by
  decide

/-- Claim C5, amended: in a state of the turn loop (the mask as long as the
word), a word guess whose candidate is the secret word ends the round as won
and takes no life, and it does not reveal the mask: a mask that was not the
secret word before the turn is not the secret word after it (word `CAT`, mask
`C**`: the guess `CAT` wins and the mask is not `CAT`). -/
theorem word_match_wins_mask_not_revealed (B : Build) (s : Game) (t : Turn)
    (hw : t.worl = 'w') (hm : t.wordguess = s.word)
    (hlen : s.unknownword.length = s.word.length) (hnul : NUL ∉ s.word) :
    (turn B s t).2 = Status.Won ∧ (turn B s t).1.lifeno = s.lifeno ∧
    (s.unknownword ≠ s.word → (turn B s t).1.unknownword ≠ s.word) := by
  have h0 : (guess B s t).wordtest = 0 := (guess_word_wordtest B s t hw).2 hm
  refine ⟨(turn_won_iff B s t).2 h0, ?_, ?_⟩
  · rw [turn_lifeno, if_pos h0]
  · exact turn_word_not_revealed B s t hw hlen hnul (by rw [hm])

/-- Witness of `word_match_wins_mask_not_revealed`: word `CAT`, mask `C**`. -/
theorem word_match_wins_mask_not_revealed_witness :
    (turn sampleBuild ⟨['C', 'A', 'T'], ['C', '*', '*'], 10, 23, Char.ofNat 8⟩
        ⟨'w', 'C', ['C', 'A', 'T']⟩).2 = Status.Won ∧
    (turn sampleBuild ⟨['C', 'A', 'T'], ['C', '*', '*'], 10, 23, Char.ofNat 8⟩
        ⟨'w', 'C', ['C', 'A', 'T']⟩).1.lifeno = 10 ∧
    (turn sampleBuild ⟨['C', 'A', 'T'], ['C', '*', '*'], 10, 23, Char.ofNat 8⟩
        ⟨'w', 'C', ['C', 'A', 'T']⟩).1.unknownword ≠ ['C', 'A', 'T'] :=
  have h := word_match_wins_mask_not_revealed sampleBuild
    ⟨['C', 'A', 'T'], ['C', '*', '*'], 10, 23, Char.ofNat 8⟩ ⟨'w', 'C', ['C', 'A', 'T']⟩
    rfl rfl (by decide) (by decide)
  ⟨h.1, h.2.1, h.2.2 (by decide)⟩

/-- Claim C6 fails on the code: on the word `CAT`, in the sample build, a word
guess with a candidate of 16 characters is a miss that takes one life and does
not win, but the mask does not stay `***`: the terminator of the candidate is
stored past `wordguess`, on `unknownword[0]`. -/
theorem long_word_miss_changes_mask :
    (startRound sampleBuild 7 ['C', 'A', 'T']).unknownword = ['*', '*', '*'] ∧
    List.replicate 16 'A' ≠ (startRound sampleBuild 7 ['C', 'A', 'T']).word ∧
    (turn sampleBuild (startRound sampleBuild 7 ['C', 'A', 'T'])
      ⟨'w', 'a', List.replicate 16 'A'⟩).1.lifeno = 9 ∧
    (turn sampleBuild (startRound sampleBuild 7 ['C', 'A', 'T'])
      ⟨'w', 'a', List.replicate 16 'A'⟩).2 = Status.InProgress ∧
    (turn sampleBuild (startRound sampleBuild 7 ['C', 'A', 'T'])
      ⟨'w', 'a', List.replicate 16 'A'⟩).1.unknownword = [NUL, '*', '*'] := by
  decide

/-- Claim C7 fails on the code: the round on the word `a` is won by the word
guess `a`, which leaves `wordtest` at 0; the next round starts with that
value, and its first turn, with the selector `x`, ends the round as won (mask
`*`, 10 lives) instead of leaving it in progress. -/
theorem invalid_selector_wins_replayed_round :
    playRound sampleBuild 7 ['a'] [⟨'w', 'a', ['a']⟩] =
      (⟨['a'], ['*'], 10, 0, Char.ofNat 8⟩, Status.Won) ∧
    turn sampleBuild
        (startRound sampleBuild
          (playRound sampleBuild 7 ['a'] [⟨'w', 'a', ['a']⟩]).1.wordtest ['a'])
        ⟨'x', 'a', []⟩ =
      (⟨['a'], ['*'], 10, 0, Char.ofNat 8⟩, Status.Won) := by
  decide

/-- Claim C9: whatever word is loaded, whatever `wordtest` holds when the round
starts and whatever the player enters, the number of lives of the state
reached lies between 0 and 10; and no turn, from any state, increases the
number of lives. -/
theorem lifeno_bounds (B : Build) (wordtest : Int) (w : List Char) (ts : List Turn) :
    (0 ≤ (playRound B wordtest w ts).1.lifeno ∧ (playRound B wordtest w ts).1.lifeno ≤ 10) ∧
    ∀ (s : Game) (t : Turn), (turn B s t).1.lifeno ≤ s.lifeno :=
  ⟨playTurns_lifeno_bounds B ts (startRound B wordtest w)
      (show (1 : Int) ≤ 10 by decide) (show (10 : Int) ≤ 10 by decide),
    turn_lifeno_le B⟩

/-- Claim C10 fails on the code: on the word `CAT`, in the sample build, after
a word guess with a candidate of 16 characters the round is in progress and the
first position of the mask holds the zero byte, which is neither the
placeholder nor the first character of the word. -/
theorem long_candidate_breaks_mask :
    playRound sampleBuild 7 ['C', 'A', 'T'] [⟨'w', 'a', List.replicate 16 'A'⟩] =
      (⟨['C', 'A', 'T'], [NUL, '*', '*'], 9, 1, Char.ofNat 8⟩, Status.InProgress) ∧
    (playRound sampleBuild 7 ['C', 'A', 'T']
      [⟨'w', 'a', List.replicate 16 'A'⟩]).1.unknownword[0]? ≠ some '*' ∧
    (playRound sampleBuild 7 ['C', 'A', 'T']
      [⟨'w', 'a', List.replicate 16 'A'⟩]).1.unknownword[0]? ≠
      (['C', 'A', 'T'] : List Char)[0]? := by
  decide

/-- Claim C11 fails on the code: on the word `ab`, in the sample build, the
letters `a` and `b` complete the mask, which is then the secret word, and the
round is still in progress: the comparison of line 93 runs into the byte that
line 64 stored after the mask, which is not the zero byte. -/
theorem completed_mask_not_won :
    playRound sampleBuild 7 ['a', 'b'] [⟨'l', 'a', []⟩, ⟨'l', 'b', []⟩] =
      (⟨['a', 'b'], ['a', 'b'], 10, -8, Char.ofNat 8⟩, Status.InProgress) ∧
    (playRound sampleBuild 7 ['a', 'b'] [⟨'l', 'a', []⟩, ⟨'l', 'b', []⟩]).1.unknownword =
      (playRound sampleBuild 7 ['a', 'b'] [⟨'l', 'a', []⟩, ⟨'l', 'b', []⟩]).1.word ∧
    (playRound sampleBuild 7 ['a', 'b'] [⟨'l', 'a', []⟩, ⟨'l', 'b', []⟩]).2 ≠ Status.Won := by
  decide

/-- Claim C12: once a round has been won or lost, what the player enters
afterwards is not read: for every list of inputs that ends the round and every
continuation, the state and the outcome of the round, its mask and its lives
among them, are those reached at the turn that ended it. -/
theorem ended_round_reads_no_more (B : Build) (s : Game) (pre rest : List Turn)
    (h : (playTurns B s pre).2 ≠ Status.InProgress) :
    playTurns B s (pre ++ rest) = playTurns B s pre ∧
    (playTurns B s (pre ++ rest)).1.unknownword = (playTurns B s pre).1.unknownword ∧
    (playTurns B s (pre ++ rest)).1.lifeno = (playTurns B s pre).1.lifeno := by
  have h1 := playTurns_append_ended B pre s rest h
  exact ⟨h1, by rw [h1], by rw [h1]⟩

/-- Witness of `ended_round_reads_no_more`: word `DOG` with 1 life, the letter
`X` loses the round and the letter `D` entered afterwards changes nothing. -/
theorem ended_round_reads_no_more_witness :
    (playTurns sampleBuild ⟨['D', 'O', 'G'], ['*', '*', '*'], 1, 1, Char.ofNat 8⟩
      [⟨'l', 'X', []⟩]).2 = Status.Lost ∧
    (playTurns sampleBuild ⟨['D', 'O', 'G'], ['*', '*', '*'], 1, 1, Char.ofNat 8⟩
        ([⟨'l', 'X', []⟩] ++ [⟨'l', 'D', []⟩]) =
      playTurns sampleBuild ⟨['D', 'O', 'G'], ['*', '*', '*'], 1, 1, Char.ofNat 8⟩
        [⟨'l', 'X', []⟩] ∧
    (playTurns sampleBuild ⟨['D', 'O', 'G'], ['*', '*', '*'], 1, 1, Char.ofNat 8⟩
        ([⟨'l', 'X', []⟩] ++ [⟨'l', 'D', []⟩])).1.unknownword =
      (playTurns sampleBuild ⟨['D', 'O', 'G'], ['*', '*', '*'], 1, 1, Char.ofNat 8⟩
        [⟨'l', 'X', []⟩]).1.unknownword ∧
    (playTurns sampleBuild ⟨['D', 'O', 'G'], ['*', '*', '*'], 1, 1, Char.ofNat 8⟩
        ([⟨'l', 'X', []⟩] ++ [⟨'l', 'D', []⟩])).1.lifeno =
      (playTurns sampleBuild ⟨['D', 'O', 'G'], ['*', '*', '*'], 1, 1, Char.ofNat 8⟩
        [⟨'l', 'X', []⟩]).1.lifeno) :=
  ⟨by decide,
    ended_round_reads_no_more sampleBuild
      ⟨['D', 'O', 'G'], ['*', '*', '*'], 1, 1, Char.ofNat 8⟩ [⟨'l', 'X', []⟩]
      [⟨'l', 'D', []⟩] (by decide)⟩

/-- Claim C13 fails on the code: on the word `aba`, which holds no `*`, in the
sample build, the distinct letters `b` and `a` are each guessed once in a
fresh round; the mask is then `aba`, the lives are 10, and the round is not
won at the last of these guesses: it is still in progress. -/
theorem all_letters_guessed_not_won :
    playRound sampleBuild 7 ['a', 'b', 'a'] [⟨'l', 'b', []⟩, ⟨'l', 'a', []⟩] =
      (⟨['a', 'b', 'a'], ['a', 'b', 'a'], 10, -8, Char.ofNat 8⟩, Status.InProgress) ∧
    (playRound sampleBuild 7 ['a', 'b', 'a'] [⟨'l', 'b', []⟩, ⟨'l', 'a', []⟩]).2 ≠
      Status.Won := by
  decide

/-- Counterexample to claim C14 as stated: there is no build, no word, no
starting value of `wordtest` and no list of inputs after which the turn loop
goes on with 0 lives. -/
theorem no_turn_starts_without_life :
    ¬ ∃ (B : Build) (wordtest : Int) (w : List Char) (ts : List Turn),
      (playRound B wordtest w ts).2 = Status.InProgress ∧
      (playRound B wordtest w ts).1.lifeno = 0 := by
  rintro ⟨B, wordtest, w, ts, hp, hz⟩
  have h := playTurns_inProgress_lifeno B ts (startRound B wordtest w)
    (show (1 : Int) ≤ 10 by decide) hp
  have hz1 : (playTurns B (startRound B wordtest w) ts).1.lifeno = 0 := hz
  omega

/-- Claim C14, amended: on every input sequence, whenever the turn loop goes
on to another turn of the round, at least one life is left: no turn starts
with 0 lives, the loop being left at line 138 as soon as `lifeno` is 0. -/
theorem every_turn_starts_with_a_life (B : Build) (wordtest : Int) (w : List Char)
    (ts : List Turn) (hp : (playRound B wordtest w ts).2 = Status.InProgress) :
    1 ≤ (playRound B wordtest w ts).1.lifeno :=
  playTurns_inProgress_lifeno B ts (startRound B wordtest w)
    (show (1 : Int) ≤ 10 by decide) hp

/-- Witness of `every_turn_starts_with_a_life`: word `DOG`, nine wrong word
guesses leave the round in progress with 1 life. -/
theorem every_turn_starts_with_a_life_witness :
    (playRound sampleBuild 7 ['D', 'O', 'G'] (List.replicate 9 ⟨'w', 'a', ['n', 'o']⟩)).2 =
      Status.InProgress ∧
    (playRound sampleBuild 7 ['D', 'O', 'G']
      (List.replicate 9 ⟨'w', 'a', ['n', 'o']⟩)).1.lifeno = 1 ∧
    1 ≤ (playRound sampleBuild 7 ['D', 'O', 'G']
      (List.replicate 9 ⟨'w', 'a', ['n', 'o']⟩)).1.lifeno ∧
    (playRound sampleBuild 7 ['D', 'O', 'G'] (List.replicate 10 ⟨'w', 'a', ['n', 'o']⟩)).2 =
      Status.Lost :=
  ⟨by decide, by decide,
    every_turn_starts_with_a_life sampleBuild 7 ['D', 'O', 'G']
      (List.replicate 9 ⟨'w', 'a', ['n', 'o']⟩) (by decide),
    by decide⟩

/-- Counterexample to claim C15 as stated: there is no build, no state and no
word guess whose turn comes out differently for two values held by `wordtest`
before the turn. -/
theorem word_turn_never_reads_wordtest :
    ¬ ∃ (B : Build) (s : Game) (k : Int) (t : Turn),
      t.worl = 'w' ∧ turn B { s with wordtest := k } t ≠ turn B s t := by
  rintro ⟨B, s, k, t, hw, hne⟩
  exact hne (turn_word_wordtest_irrelevant B s t k hw)

/-- Claim C15, amended: the outcome of a word-guess turn does not depend on
the value `wordtest` held before the turn: line 103 assigns `wordtest` from the
candidate before it is tested, so the turn is the same for every earlier value,
and a word guess equal to the secret word wins whatever a previous letter
guess left in `wordtest`. -/
theorem word_turn_ignores_stale_wordtest (B : Build) (s : Game) (k : Int) (t : Turn)
    (hw : t.worl = 'w') :
    turn B { s with wordtest := k } t = turn B s t ∧
    (t.wordguess = s.word → (turn B { s with wordtest := k } t).2 = Status.Won) := by
  refine ⟨turn_word_wordtest_irrelevant B s t k hw, fun hm => ?_⟩
  rw [turn_word_wordtest_irrelevant B s t k hw, turn_won_iff, guess_word_wordtest B s t hw]
  exact hm

/-- Witness of `word_turn_ignores_stale_wordtest`: word `CAT`, mask `C**` and
`wordtest = 23` as left by the letter `C`, or `wordtest = -5`: the word guess
`CAT` wins all the same. -/
theorem word_turn_ignores_stale_wordtest_witness :
    playRound sampleBuild 7 ['C', 'A', 'T'] [⟨'l', 'C', []⟩] =
      (⟨['C', 'A', 'T'], ['C', '*', '*'], 10, 23, Char.ofNat 8⟩, Status.InProgress) ∧
    (turn sampleBuild
        { (⟨['C', 'A', 'T'], ['C', '*', '*'], 10, 23, Char.ofNat 8⟩ : Game) with
          wordtest := -5 }
        ⟨'w', 'C', ['C', 'A', 'T']⟩ =
      turn sampleBuild ⟨['C', 'A', 'T'], ['C', '*', '*'], 10, 23, Char.ofNat 8⟩
        ⟨'w', 'C', ['C', 'A', 'T']⟩ ∧
    ((['C', 'A', 'T'] : List Char) = ['C', 'A', 'T'] →
      (turn sampleBuild
        { (⟨['C', 'A', 'T'], ['C', '*', '*'], 10, 23, Char.ofNat 8⟩ : Game) with
          wordtest := -5 }
        ⟨'w', 'C', ['C', 'A', 'T']⟩).2 = Status.Won)) ∧
    (turn sampleBuild ⟨['C', 'A', 'T'], ['C', '*', '*'], 10, 23, Char.ofNat 8⟩
      ⟨'w', 'C', ['C', 'A', 'T']⟩).2 = Status.Won :=
  ⟨by decide,
    word_turn_ignores_stale_wordtest sampleBuild
      ⟨['C', 'A', 'T'], ['C', '*', '*'], 10, 23, Char.ofNat 8⟩ (-5)
      ⟨'w', 'C', ['C', 'A', 'T']⟩ rfl,
    by decide⟩

/-- Claim C16: `wordtest` is not reset between rounds.  In a round that starts
right after a round that was won, `wordtest` is still 0, and a first turn
whose selector is neither `l` nor `w` ends the round at once as won, the mask
being all placeholders and the lives 10. -/
theorem invalid_selector_after_won_round (B : Build) (wordtest : Int) (w : List Char)
    (ts : List Turn) (w2 : List Char) (t : Turn)
    (hwon : (playRound B wordtest w ts).2 = Status.Won)
    (hl : t.worl ≠ 'l') (hw : t.worl ≠ 'w') :
    (startRound B (playRound B wordtest w ts).1.wordtest w2).wordtest = 0 ∧
    (turn B (startRound B (playRound B wordtest w ts).1.wordtest w2) t).2 = Status.Won ∧
    (turn B (startRound B (playRound B wordtest w ts).1.wordtest w2) t).1.unknownword =
      List.replicate w2.length '*' ∧
    (turn B (startRound B (playRound B wordtest w ts).1.wordtest w2) t).1.lifeno = 10 := by
  have h0 : (playRound B wordtest w ts).1.wordtest = 0 :=
    playTurns_won_wordtest B ts (startRound B wordtest w) hwon
  rw [h0]
  have hg := guess_other B (startRound B 0 w2) t hl hw
  have hz : (guess B (startRound B 0 w2) t).wordtest = 0 := by rw [hg]; rfl
  refine ⟨rfl, (turn_won_iff B _ t).2 hz, ?_, ?_⟩
  · rw [turn_unknownword, hg]; rfl
  · rw [turn_lifeno, if_pos hz]; rfl

/-- Witness of `invalid_selector_after_won_round`: the word `a` is won by the
word guess `a`; the next round, on the word `dog`, is won by the selector
`x`. -/
theorem invalid_selector_after_won_round_witness :
    (startRound sampleBuild (playRound sampleBuild 7 ['a'] [⟨'w', 'a', ['a']⟩]).1.wordtest
      ['d', 'o', 'g']).wordtest = 0 ∧
    (turn sampleBuild
      (startRound sampleBuild (playRound sampleBuild 7 ['a'] [⟨'w', 'a', ['a']⟩]).1.wordtest
        ['d', 'o', 'g'])
      ⟨'x', 'a', []⟩).2 = Status.Won ∧
    (turn sampleBuild
      (startRound sampleBuild (playRound sampleBuild 7 ['a'] [⟨'w', 'a', ['a']⟩]).1.wordtest
        ['d', 'o', 'g'])
      ⟨'x', 'a', []⟩).1.unknownword = List.replicate (['d', 'o', 'g'] : List Char).length '*' ∧
    (turn sampleBuild
      (startRound sampleBuild (playRound sampleBuild 7 ['a'] [⟨'w', 'a', ['a']⟩]).1.wordtest
        ['d', 'o', 'g'])
      ⟨'x', 'a', []⟩).1.lifeno = 10 :=
  invalid_selector_after_won_round sampleBuild 7 ['a'] [⟨'w', 'a', ['a']⟩] ['d', 'o', 'g']
    ⟨'x', 'a', []⟩ (by decide) (by decide) (by decide)

/-- Claim C17: in a state of the turn loop (the mask being as long as the
word), a letter guess of a letter that occurs in the word and is already shown
at all its positions leaves the mask and the lives unchanged; and the mask
update of a letter guess is idempotent: guessing the same letter a second time
gives the mask the first guess gave. -/
theorem letter_guess_idempotent (B : Build) (s : Game) (t : Turn) (hl : t.worl = 'l')
    (hlen : s.unknownword.length = s.word.length) :
    (t.letterguess ∈ s.word →
      (∀ i : Nat, s.word[i]? = some t.letterguess → s.unknownword[i]? = some t.letterguess) →
      (turn B s t).1.unknownword = s.unknownword ∧ (turn B s t).1.lifeno = s.lifeno) ∧
    (turn B (turn B s t).1 t).1.unknownword = (turn B s t).1.unknownword := by
  have key : ∀ (r : Game), r.unknownword.length = r.word.length →
      (∀ i : Nat, r.word[i]? = some t.letterguess → r.unknownword[i]? = some t.letterguess) →
      (turn B r t).1.unknownword = r.unknownword := by
    intro r hrlen hrev
    rw [turn_unknownword, guess_letter B r t hl]
    apply List.ext_getElem?
    intro i
    rw [letterLoop_getElem?]
    split
    · rename_i hc
      have hlt : i < r.unknownword.length := by omega
      rw [if_pos hlt, hrev i hc.2.2]
    · rfl
  refine ⟨fun hin hrev => ⟨key s hlen hrev, turn_letter_hit_lifeno B s t hl hin⟩, ?_⟩
  apply key (turn B s t).1
  · rw [turn_unknownword, guess_length, turn_word, hlen]
  · intro i hi
    rw [turn_word] at hi
    rw [turn_unknownword, guess_letter B s t hl, letterLoop_getElem?]
    have hlt : i < s.word.length := by
      by_contra hge
      rw [List.getElem?_eq_none (by omega)] at hi
      cases hi
    have hc : 0 ≤ i ∧ i < 0 + s.word.length ∧ s.word[i]? = some t.letterguess :=
      ⟨Nat.zero_le _, by omega, hi⟩
    have hm : i < s.unknownword.length := by omega
    rw [if_pos hc, if_pos hm]

/-- Witness of `letter_guess_idempotent`: word `aba` with mask `a*a`, letter
`a` guessed again; and with the fresh mask `***`, letter `a` guessed twice. -/
theorem letter_guess_idempotent_witness :
    ((turn sampleBuild ⟨['a', 'b', 'a'], ['a', '*', 'a'], 10, 5, Char.ofNat 8⟩
        ⟨'l', 'a', []⟩).1.unknownword = ['a', '*', 'a'] ∧
      (turn sampleBuild ⟨['a', 'b', 'a'], ['a', '*', 'a'], 10, 5, Char.ofNat 8⟩
        ⟨'l', 'a', []⟩).1.lifeno = 10) ∧
    (turn sampleBuild
        (turn sampleBuild ⟨['a', 'b', 'a'], ['*', '*', '*'], 10, 5, Char.ofNat 8⟩
          ⟨'l', 'a', []⟩).1
        ⟨'l', 'a', []⟩).1.unknownword =
      (turn sampleBuild ⟨['a', 'b', 'a'], ['*', '*', '*'], 10, 5, Char.ofNat 8⟩
        ⟨'l', 'a', []⟩).1.unknownword :=
  ⟨(letter_guess_idempotent sampleBuild
      ⟨['a', 'b', 'a'], ['a', '*', 'a'], 10, 5, Char.ofNat 8⟩ ⟨'l', 'a', []⟩ rfl
      (by decide)).1 (by decide) (by
        intro i hi
        match i with
        | 0 => rfl
        | 1 => exact absurd hi (by decide)
        | 2 => rfl
        | n + 3 => exact absurd hi (by simp)),
    (letter_guess_idempotent sampleBuild
      ⟨['a', 'b', 'a'], ['*', '*', '*'], 10, 5, Char.ofNat 8⟩ ⟨'l', 'a', []⟩ rfl
      (by decide)).2⟩

/-- Claim C18: `readfile` copies every character of the file into the word,
white space included: a file of fewer than `MaxWordLenght` bytes with no zero
byte and no byte 255 (which the test of line 178 takes for the end of the
file) is the loaded word.  When that word holds a white space and the round
starts with `wordtest` not 0, no list of turns on scanned input (letters that
are no white space, candidates that hold none) wins the round, in any build:
the mask is never the word and no candidate is the word. -/
theorem whitespace_word_never_won (B : Build) (file : List Char) (wordtest : Int)
    (ts : List Turn) (hlen : file.length < MaxWordLenght) (hnul : NUL ∉ file)
    (heof : ∀ c ∈ file, c.toNat ≠ 255) (hws : ∃ c ∈ file, isspace c = true)
    (hwt : wordtest ≠ 0) (hts : ∀ t ∈ ts, Scanned t) :
    loadWord file = file ∧
    (playRound B wordtest (loadWord file) ts).2 ≠ Status.Won ∧
    (playRound B wordtest (loadWord file) ts).1.unknownword ≠ loadWord file ∧
    ∀ t ∈ ts, t.worl = 'w' → t.wordguess ≠ loadWord file := by
  have hload := loadWord_eq file hlen hnul heof
  rw [hload]
  obtain ⟨ws, hmem, hsp⟩ := hws
  obtain ⟨p, hp⟩ := List.mem_iff_getElem?.1 hmem
  have hplt : p < file.length := by
    by_contra hge
    rw [List.getElem?_eq_none (by omega)] at hp
    cases hp
  have hstar : ws ≠ '*' := by
    intro e
    rw [e] at hsp
    exact absurd hsp (by decide)
  have h := playTurns_whitespace_word B p ws hsp ts (startRound B wordtest file) hp
    (by simp [startRound, strlen])
    (by
      show (List.replicate (strlen file) '*')[p]? ≠ some ws
      rw [List.getElem?_replicate, strlen, if_pos hplt]
      exact fun e => hstar (Option.some.inj e).symm)
    hwt hts
  refine ⟨rfl, h.1, ?_, ?_⟩
  · intro e
    have h2 : (playTurns B (startRound B wordtest file) ts).1.unknownword[p]? ≠ some ws := h.2
    have e1 : (playTurns B (startRound B wordtest file) ts).1.unknownword = file := e
    rw [e1] at h2
    exact h2 hp
  · intro t ht hw e
    have h1 := (hts t ht).2 hw ws (by rw [e]; exact hmem)
    rw [hsp] at h1
    cases h1

/-- Witness of `whitespace_word_never_won`: the file holds `at` followed by a
line feed; the letters `a` and `t` and then the word `at` do not win. -/
theorem whitespace_word_never_won_witness :
    loadWord ['a', 't', Char.ofNat 10] = ['a', 't', Char.ofNat 10] ∧
    (playRound sampleBuild 7 (loadWord ['a', 't', Char.ofNat 10])
      [⟨'l', 'a', []⟩, ⟨'l', 't', []⟩, ⟨'w', 't', ['a', 't']⟩]).2 ≠ Status.Won ∧
    (playRound sampleBuild 7 (loadWord ['a', 't', Char.ofNat 10])
      [⟨'l', 'a', []⟩, ⟨'l', 't', []⟩, ⟨'w', 't', ['a', 't']⟩]).1.unknownword ≠
      loadWord ['a', 't', Char.ofNat 10] ∧
    ∀ t ∈ [(⟨'l', 'a', []⟩ : Turn), ⟨'l', 't', []⟩, ⟨'w', 't', ['a', 't']⟩],
      t.worl = 'w' → t.wordguess ≠ loadWord ['a', 't', Char.ofNat 10] :=
  whitespace_word_never_won sampleBuild ['a', 't', Char.ofNat 10] 7
    [⟨'l', 'a', []⟩, ⟨'l', 't', []⟩, ⟨'w', 't', ['a', 't']⟩]
    (by decide) (by decide) (by decide) ⟨Char.ofNat 10, by decide, by decide⟩ (by decide)
    (by
      intro t ht
      simp only [List.mem_cons, List.mem_singleton, List.not_mem_nil, or_false] at ht
      rcases ht with rfl | rfl | rfl <;> exact ⟨by decide, by decide⟩)

end Hangman
